import Mathlib

/-!
# Verification of the SED pixel-to-catalogue core and cigale config modules

A shallow embedding, in Lean 4, of the pixel-to-catalogue table builder and
catalogue-to-image reconstructor of the SED library, together with the parts
of `src/misc/cigaleModules.py` that the claims reach.

The repository slice ships only `src/misc/cigaleModules.py`; the module
`filters.py` / `outputs.py` holding `Filter`, `FilterList`, `genTable`,
`link` and `toImage` is not part of the slice, so those operations are
modelled from the specification text (each such definition says so in its
doc comment).  Arrays are modelled as functions from coordinates, machine
floats as exact rationals, and the Poisson draw of the noise model as an
explicit oracle passed to `genTable`.
-/

namespace SED

/-- Modelled from the spec: the row-major enumeration of all pixel
coordinates of an `h × w` grid (`filters.py` is absent from the slice):
"iterate pixels in row-major order". -/
def rowMajorCoords (h w : Nat) : List (Nat × Nat) :=
  (List.range h).flatMap (fun y => (List.range w).map (fun x => (y, x)))

/-- Modelled from the spec: the pixel index built at `FilterList`
construction: "iterate pixels in row-major order, keep those where mask is
false, assign them consecutive integer row ids 0..N-1". -/
def buildIndex (h w : Nat) (mask : Nat → Nat → Bool) : List (Nat × Nat) :=
  (rowMajorCoords h w).filter (fun p => !mask p.1 p.2)

/-- Modelled from the spec: one photometric band's per-pixel data
(`filters.py` is absent from the slice): flux map, variance map and a
zero-point; arrays are functions from pixel coordinates to exact
rationals. -/
structure Filter where
  name : String
  flux : Nat → Nat → ℚ
  fvar : Nat → Nat → ℚ
  zeropoint : ℚ

/-- Modelled from the spec: an ordered collection of Filters sharing one
pixel grid and one mask, owning the derived pixel index (`filters.py` is
absent from the slice). -/
structure FilterList where
  h : Nat
  w : Nat
  filters : List Filter
  mask : Nat → Nat → Bool
  redshift : ℚ
  index : List (Nat × Nat)

/-- Modelled from the spec: `FilterList` construction "builds the pixel
index immediately" from the supplied mask. -/
def FilterList.build (h w : Nat) (fs : List Filter) (mask : Nat → Nat → Bool)
    (z : ℚ) : FilterList :=
  { h := h, w := w, filters := fs, mask := mask, redshift := z,
    index := buildIndex h w mask }

/-- Modelled from the spec: the inverse mapping of the pixel index
(row id → (y, x)). -/
def FilterList.coordOfRow (fl : FilterList) (r : Nat) : Option (Nat × Nat) :=
  fl.index.get? r

/-- Position of the first occurrence of `p` in a coordinate list (the list
length when absent). -/
def idxOf (p : Nat × Nat) : List (Nat × Nat) → Nat
  | [] => 0
  | q :: t => if q = p then 0 else idxOf p t + 1

/-- Row id of a coordinate inside a given index list (absent when the
coordinate is not indexed). -/
def rowIdIn (idx : List (Nat × Nat)) (p : Nat × Nat) : Option Nat :=
  if p ∈ idx then some (idxOf p idx) else none

/-- Modelled from the spec: the forward mapping of the pixel index
((y, x) → row id, absent for masked pixels). -/
def FilterList.rowOfCoord (fl : FilterList) (p : Nat × Nat) : Option Nat :=
  rowIdIn fl.index p

/-- Pair every element of a list with consecutive ids starting at `k`. -/
def indexed (k : Nat) : List α → List (Nat × α)
  | [] => []
  | a :: l => (k, a) :: indexed (k + 1) l

/-- The synthetic output table that carries each row's own row id as its
value: the rows `(r, r)` for the row ids `r = 0 .. N-1` of the pixel
index. -/
def idRows (fl : FilterList) : List (Nat × ℚ) :=
  (indexed 0 fl.index).map (fun rp => (rp.1, (rp.1 : ℚ)))

/-- Modelled from the spec: image reconstruction `toImage`: every pixel is
the no-data sentinel unless the forward mapping assigns the pixel a row id
carried by some output row, in which case it is that row's value
(`outputs.py` is absent from the slice; output rows carry distinct ids once
linked, so first-match lookup agrees with the scatter the spec describes). -/
def toImage (fl : FilterList) (rows : List (Nat × ℚ)) (sentinel : ℚ)
    (y x : Nat) : ℚ :=
  match fl.rowOfCoord (y, x) with
  | none => sentinel
  | some r =>
    match rows.lookup r with
    | some v => v
    | none => sentinel

/-- Modelled from the spec: the two cleaning policies of `genTable`: "one
policy zeroes them out, another variant policy may discard the owning pixel
entirely". -/
inductive CleanMethod
  | ZERO
  | REMOVE
deriving DecidableEq

/-- The error taxonomy of the spec (§7). -/
inductive SEDError
  | ShapeMismatch
  | EmptyMask
  | InvalidParameter
  | IndexMismatch
  | UnknownColumn
deriving DecidableEq

/-- Modelled from the spec: the ZERO policy zeroes non-positive values
(non-finite values do not exist in the rational model); the REMOVE policy
leaves values alone and instead discards bad pixels from the index. -/
def cleanPair : CleanMethod → ℚ × ℚ → ℚ × ℚ
  | .ZERO, (f, v) => ((if f ≤ 0 then 0 else f), (if v ≤ 0 then 0 else v))
  | .REMOVE, (f, v) => (f, v)

/-- Modelled from the spec: the Poisson noise step of `genTable`.  With
`texpFac = 0` it is the identity; otherwise the drawn count `c` replaces the
flux by the count rate `c / texpFac` and the variance by
`c / texpFac²` (variance-stabilizing Poisson relationship). -/
def noisePair (texpFac : Nat) (c : Nat) : ℚ × ℚ → ℚ × ℚ
  | (f, v) =>
    if texpFac = 0 then (f, v)
    else ((c : ℚ) / (texpFac : ℚ), (c : ℚ) / ((texpFac : ℚ) * (texpFac : ℚ)))

/-- Modelled from the spec: the multiplicative rescaling applied uniformly
to flux and variance. -/
def scalePair (s : ℚ) : ℚ × ℚ → ℚ × ℚ
  | (f, v) => (s * f, s * v)

/-- The full per-band transformation a flux/variance pair undergoes in
`genTable`: clean, then optional Poisson noise with drawn count `c`, then
rescale. -/
def bandPair (clean : CleanMethod) (s : ℚ) (t : Nat) (c : Nat)
    (f0 v0 : ℚ) : ℚ × ℚ :=
  scalePair s (noisePair t c (cleanPair clean (f0, v0)))

/-- A pixel is good when every band's flux and variance there are strictly
positive (the REMOVE policy keeps exactly the good pixels). -/
def pixelGood (fl : FilterList) (p : Nat × Nat) : Bool :=
  fl.filters.all
    (fun f => decide (0 < f.flux p.1 p.2) && decide (0 < f.fvar p.1 p.2))

/-- One row of the generated table: identity (row id, pixel y, pixel x),
the per-band flux/variance pairs in Filter list order, and the redshift. -/
structure TableRow where
  id : Nat
  y : Nat
  x : Nat
  vals : List (ℚ × ℚ)
  redshift : ℚ
deriving DecidableEq

/-- The generated-table row of pixel `p` with row id `r`. -/
def mkRow (fl : FilterList) (clean : CleanMethod) (s : ℚ) (t : Nat)
    (draw : Nat → Nat → Nat) (r : Nat) (p : Nat × Nat) : TableRow :=
  { id := r, y := p.1, x := p.2,
    vals := (indexed 0 fl.filters).map
      (fun bf => bandPair clean s t (draw r bf.1)
        (bf.2.flux p.1 p.2) (bf.2.fvar p.1 p.2)),
    redshift := fl.redshift }

/-- The pixel index after cleaning: the ZERO policy leaves it unchanged,
the REMOVE policy keeps only the good pixels. -/
def genIndex (fl : FilterList) : CleanMethod → List (Nat × Nat)
  | .ZERO => fl.index
  | .REMOVE => fl.index.filter (pixelGood fl)

/-- The rows of the generated table, in pixel-index order with consecutive
row ids from 0. -/
def genRows (fl : FilterList) (clean : CleanMethod) (s : ℚ) (t : Nat)
    (draw : Nat → Nat → Nat) : List TableRow :=
  (indexed 0 (genIndex fl clean)).map
    (fun rp => mkRow fl clean s t draw rp.1 rp.2)

/-- The regenerated Filters: at every surviving indexed pixel the stored
flux/variance becomes what was written to the table; elsewhere it is
untouched. -/
def genFilters (fl : FilterList) (clean : CleanMethod) (s : ℚ) (t : Nat)
    (draw : Nat → Nat → Nat) : List Filter :=
  (indexed 0 fl.filters).map (fun bf =>
    { bf.2 with
      flux := fun y x =>
        match rowIdIn (genIndex fl clean) (y, x) with
        | some r => (bandPair clean s t (draw r bf.1)
            (bf.2.flux y x) (bf.2.fvar y x)).1
        | none => bf.2.flux y x,
      fvar := fun y x =>
        match rowIdIn (genIndex fl clean) (y, x) with
        | some r => (bandPair clean s t (draw r bf.1)
            (bf.2.flux y x) (bf.2.fvar y x)).2
        | none => bf.2.fvar y x })

/-- The FilterList state after a successful `genTable`: regenerated
filters, possibly shrunk index, everything else untouched. -/
def genState (fl : FilterList) (clean : CleanMethod) (s : ℚ) (t : Nat)
    (draw : Nat → Nat → Nat) : FilterList :=
  { fl with filters := genFilters fl clean s t draw,
            index := genIndex fl clean }

/-- Modelled from the spec: `genTable(cleanMethod, scaleFactor, texpFac)`
(`filters.py` is absent from the slice).  Validation first: a non-positive
scale factor raises InvalidParameter (non-finite values do not exist in the
rational model), a mask leaving zero usable pixels raises EmptyMask; only
then is the (possibly shrunk) index computed, the table emitted in
pixel-index order, and the regenerated flux/variance stored back onto the
Filters.  The Poisson draw is an explicit oracle
`draw : row id → band → count`. -/
def genTable (fl : FilterList) (clean : CleanMethod) (s : ℚ) (t : Nat)
    (draw : Nat → Nat → Nat) :
    Except SEDError (List TableRow × FilterList) :=
  if ¬ 0 < s then .error .InvalidParameter
  else if fl.index = [] then .error .EmptyMask
  else .ok (genRows fl clean s t draw, genState fl clean s t draw)

/-- The synthetic identity-mapped output column carrying band `b`'s flux of
each generated table row. -/
def fluxCol (tab : List TableRow) (b : Nat) : List (Nat × ℚ) :=
  tab.map (fun row => (row.id, (row.vals.getD b (0, 0)).1))

/-- Modelled from the spec: a linked output parser: a reference to the
FilterList plus the output rows indexed by identity. -/
structure LinkedOutput where
  fl : FilterList
  rows : List (Nat × ℚ)

/-- Modelled from the spec: `link(filterList)` (`outputs.py` is absent from
the slice): verifies that the row count equals the pixel-index cardinality
and that the identity values are exactly `0..N-1`; IndexMismatch otherwise. -/
def link (fl : FilterList) (rows : List (Nat × ℚ)) :
    Except SEDError LinkedOutput :=
  if rows.length = fl.index.length
      ∧ (∀ i ∈ rows.map Prod.fst, i < fl.index.length)
      ∧ (∀ r < fl.index.length, r ∈ rows.map Prod.fst)
  then .ok ⟨fl, rows⟩
  else .error .IndexMismatch

/-! ## The cigale configuration modules (`src/misc/cigaleModules.py`)

Python object attributes are modelled as an association list written by
`setAttr` (assignment overwrites) and read by `getAttr` (absent attribute =
AttributeError = `none`).  Property values are kept opaque as the strings
they would render to. -/

/-- Python attribute assignment: overwrite the binding if the attribute
exists, append it otherwise. -/
def setAttr : List (String × String) → String → String → List (String × String)
  | [], k, v => [(k, v)]
  | (k1, v1) :: t, k, v =>
    if k1 = k then (k, v) :: t else (k1, v1) :: setAttr t k v

/-- Python attribute read: `none` models an AttributeError. -/
def getAttr (attrs : List (String × String)) (k : String) : Option String :=
  attrs.lookup k

/-- `DUSTATT_MODIFIED_CF00module.__init__` (source lines 566-580): the
attribute assignments in source order.  The base-class init sets `filters`,
the subclass sets it again, then `Av_ISM`, `mu`, `slope_ISM`, and then the
source assigns `ListFloatProperty(slope_BC)` to `self.slope_ISM` a second
time — the attribute `slope_BC` is never created. -/
def cf00Init (filters Av_ISM mu sISM sBC : String) :
    List (String × String) :=
  setAttr (setAttr (setAttr (setAttr (setAttr (setAttr []
    "filters" filters) "filters" filters) "Av_ISM" Av_ISM) "mu" mu)
    "slope_ISM" sISM) "slope_ISM" sBC

/-- `DUSTATT_MODIFIED_CF00module.__str__` (source lines 582-605): renders
the parameter block, reading the attributes `Av_ISM`, `mu`, `slope_ISM`,
`slope_BC` and `filters`; reading a missing attribute raises
(`none`). -/
def cf00Str (attrs : List (String × String)) : Option String := do
  let av ← getAttr attrs "Av_ISM"
  let mu ← getAttr attrs "mu"
  let sISM ← getAttr attrs "slope_ISM"
  let sBC ← getAttr attrs "slope_BC"
  let flt ← getAttr attrs "filters"
  pure ("[[dustatt_modified_CF00]]\n  Av_ISM = " ++ av ++ "\n  mu = " ++ mu
    ++ "\n  slope_ISM = " ++ sISM ++ "\n  slope_BC = " ++ sBC
    ++ "\n  filters = " ++ flt)

/-- Modelled from the spec: the bound-checked list-of-float property
factory (`properties.py` is absent from the slice; §9: "explicit validated
value types constructed through a fallible factory that enforces
min/max/enumerated constraints at construction time").  The list is
accepted iff every element lies within the optional bounds and the optional
extra test does not reject the list. -/
def listFloatPropertyOk (vals : List ℚ) (minB maxB : Option ℚ)
    (reject : List ℚ → Bool) : Bool :=
  vals.all (fun v =>
    (match minB with | none => true | some m => decide (m ≤ v)) &&
    (match maxB with | none => true | some M => decide (v ≤ M))) &&
  ! reject vals

/-- The `E_BV_factor` validation of `DUSTATT_MODIFIED_STARBUSTmodule.__init__`
(source line 640): `ListFloatProperty(E_BV_factor, minBound=0.0,
maxBound=0.0)`, with no extra test. -/
def eBVFactorOk (vals : List ℚ) : Bool :=
  listFloatPropertyOk vals (some 0) (some 0) (fun _ => false)

/-- The `logU` grid of `NEBULARmodule.__init__` (source line 490):
`[i/10 for i in range(-40, -9, 1)]`, as exact rationals. -/
def logURangeQ : List ℚ :=
  (List.range 31).map (fun (i : Nat) => ((((i : ℤ) - 40 : ℤ)) : ℚ) / 10)

/-- The `logU` validation of `NEBULARmodule.__init__` (source lines
492-494): bounds `[-4.0, -1.0]` plus the test rejecting any value off the
grid. -/
def nebularLogUOk (vals : List ℚ) : Bool :=
  listFloatPropertyOk vals (some (-4)) (some (-1))
    (fun value => value.any (fun i => ! decide (i ∈ logURangeQ)))

/-! ## Helper lemmas: the row-major scan and the pixel index -/

/-- The strict row-major order on pixel coordinates. -/
def rmLt (p q : Nat × Nat) : Prop :=
  p.1 < q.1 ∨ (p.1 = q.1 ∧ p.2 < q.2)

theorem mem_rowMajorCoords {h w : Nat} {p : Nat × Nat} :
    p ∈ rowMajorCoords h w ↔ p.1 < h ∧ p.2 < w := by
  cases p with
  | mk y x =>
    simp only [rowMajorCoords, List.mem_flatMap, List.mem_map, List.mem_range,
      Prod.mk.injEq]
    constructor
    · rintro ⟨a, ha, b, hb, rfl, rfl⟩
      exact ⟨ha, hb⟩
    · rintro ⟨hy, hx⟩
      exact ⟨y, hy, x, hx, rfl, rfl⟩

theorem rowMajorCoords_succ (h w : Nat) :
    rowMajorCoords (h + 1) w
      = rowMajorCoords h w ++ (List.range w).map (fun x => (h, x)) := by
  simp [rowMajorCoords, List.range_succ]

theorem pairwise_rowMajorCoords (h w : Nat) :
    (rowMajorCoords h w).Pairwise rmLt := by
  induction h with
  | zero => simp [rowMajorCoords]
  | succ m ih =>
    rw [rowMajorCoords_succ, List.pairwise_append]
    refine ⟨ih, ?_, ?_⟩
    · rw [List.pairwise_map]
      exact (List.pairwise_lt_range w).imp (fun hab => Or.inr ⟨rfl, hab⟩)
    · intro a ha b hb
      rcases List.mem_map.mp hb with ⟨x, _, rfl⟩
      exact Or.inl ((mem_rowMajorCoords.mp ha).1)

theorem rmLt_ne {p q : Nat × Nat} (h : rmLt p q) : p ≠ q := by
  rintro rfl
  rcases h with h | ⟨_, h⟩ <;> exact absurd h (lt_irrefl _)

theorem nodup_rowMajorCoords (h w : Nat) : (rowMajorCoords h w).Nodup :=
  (pairwise_rowMajorCoords h w).imp (fun hpq => rmLt_ne hpq)

theorem mem_buildIndex {h w : Nat} {mask : Nat → Nat → Bool}
    {p : Nat × Nat} :
    p ∈ buildIndex h w mask
      ↔ p.1 < h ∧ p.2 < w ∧ mask p.1 p.2 = false := by
  simp [buildIndex, List.mem_filter, mem_rowMajorCoords, and_assoc]

theorem nodup_buildIndex (h w : Nat) (mask : Nat → Nat → Bool) :
    (buildIndex h w mask).Nodup :=
  (nodup_rowMajorCoords h w).filter _

theorem pairwise_buildIndex (h w : Nat) (mask : Nat → Nat → Bool) :
    (buildIndex h w mask).Pairwise rmLt :=
  List.Pairwise.sublist (List.filter_sublist _) (pairwise_rowMajorCoords h w)

theorem get?_idxOf {p : Nat × Nat} :
    ∀ {idx : List (Nat × Nat)}, p ∈ idx → idx.get? (idxOf p idx) = some p := by
  intro idx
  induction idx with
  | nil => intro h; exact absurd h (List.not_mem_nil p)
  | cons q t ih =>
    intro hmem
    by_cases hq : q = p
    · simp [idxOf, hq]
    · have hpt : p ∈ t := by
        rcases List.mem_cons.mp hmem with h | h
        · exact absurd h.symm hq
        · exact h
      simpa [idxOf, hq] using ih hpt

theorem idxOf_get? {p : Nat × Nat} :
    ∀ {idx : List (Nat × Nat)}, idx.Nodup → ∀ {r : Nat},
      idx.get? r = some p → idxOf p idx = r := by
  intro idx
  induction idx with
  | nil => intro _ r h; simp at h
  | cons q t ih =>
    intro hnd r hg
    have hqt : q ∉ t := (List.nodup_cons.mp hnd).1
    cases r with
    | zero =>
      have : q = p := by simpa using hg
      simp [idxOf, this]
    | succ r2 =>
      have hg2 : t.get? r2 = some p := by simpa using hg
      have hpt : p ∈ t := List.get?_mem hg2
      have hq : q ≠ p := fun he => hqt (he ▸ hpt)
      simp [idxOf, hq, ih (List.nodup_cons.mp hnd).2 hg2]

theorem rowIdIn_of_get? {idx : List (Nat × Nat)} (hnd : idx.Nodup)
    {r : Nat} {p : Nat × Nat} (hg : idx.get? r = some p) :
    rowIdIn idx p = some r := by
  have hmem : p ∈ idx := List.get?_mem hg
  simp [rowIdIn, hmem, idxOf_get? hnd hg]

theorem get?_of_rowIdIn {idx : List (Nat × Nat)} {p : Nat × Nat} {r : Nat}
    (h : rowIdIn idx p = some r) : idx.get? r = some p := by
  unfold rowIdIn at h
  by_cases hm : p ∈ idx
  · simp only [hm, if_true, Option.some.injEq] at h
    subst h
    exact get?_idxOf hm
  · simp [hm] at h

theorem rowIdIn_eq_none {idx : List (Nat × Nat)} {p : Nat × Nat}
    (h : p ∉ idx) : rowIdIn idx p = none := by
  simp [rowIdIn, h]

/-! ## Helper lemmas: `indexed` and table lookups -/

theorem length_indexed : ∀ (l : List α) (k : Nat),
    (indexed k l).length = l.length
  | [], _ => rfl
  | _ :: l, k => by simp [indexed, length_indexed l (k + 1)]

theorem get?_indexed : ∀ (l : List α) (k i : Nat),
    (indexed k l).get? i = (l.get? i).map (fun a => (k + i, a))
  | [], _, _ => by simp [indexed]
  | a :: l, k, 0 => by simp [indexed]
  | a :: l, k, i + 1 => by
    have hrec := get?_indexed l (k + 1) i
    simp only [indexed, List.get?_cons_succ, hrec]
    have : k + 1 + i = k + (i + 1) := by omega
    rw [this]

theorem mem_indexed {x : Nat × α} : ∀ {l : List α} {k : Nat},
    x ∈ indexed k l ↔ ∃ j, l.get? j = some x.2 ∧ x.1 = k + j := by
  intro l
  induction l with
  | nil => simp [indexed]
  | cons a t ih =>
    intro k
    cases x with
    | mk i b =>
      simp only [indexed, List.mem_cons, Prod.mk.injEq, ih]
      constructor
      · rintro (⟨rfl, rfl⟩ | ⟨j, hj, rfl⟩)
        · exact ⟨0, by simp⟩
        · exact ⟨j + 1, by simpa using hj, by omega⟩
      · rintro ⟨j, hj, rfl⟩
        cases j with
        | zero => simp at hj; exact Or.inl ⟨by omega, hj.symm⟩
        | succ j' =>
          refine Or.inr ⟨j', by simpa using hj, by omega⟩

theorem get?_indexedMap (g : Nat × α → β) :
    ∀ (l : List α) (k i : Nat),
      ((indexed k l).map g).get? i = (l.get? i).map (fun a => g (k + i, a)) := by
  intro l k i
  rw [List.get?_map, get?_indexed, Option.map_map]
  rfl

theorem lookup_indexedMap (F : Nat → α → ℚ) :
    ∀ (l : List α) (k r : Nat),
      ((indexed k l).map (fun rp => (rp.1, F rp.1 rp.2))).lookup (k + r)
        = (l.get? r).map (fun a => F (k + r) a)
  | [], k, r => by simp [indexed]
  | a :: l, k, r => by
    cases r with
    | zero => simp [indexed, List.lookup]
    | succ r2 =>
      have hne : ((k + (r2 + 1) == k) = false) := by
        simp only [beq_eq_false_iff_ne, ne_eq]
        omega
      simp only [indexed, List.map_cons, List.lookup_cons, hne]
      have hrec := lookup_indexedMap F l (k + 1) r2
      have harith : k + 1 + r2 = k + (r2 + 1) := by omega
      rw [harith] at hrec
      simpa using hrec

theorem lookup_indexedMap_zero (F : Nat → α → ℚ) (l : List α) (r : Nat) :
    ((indexed 0 l).map (fun rp => (rp.1, F rp.1 rp.2))).lookup r
      = (l.get? r).map (fun a => F r a) := by
  have := lookup_indexedMap F l 0 r
  simpa using this

/-! ## Helper lemmas: `genTable`, `link` and the band transformation -/

theorem genTable_ok_inv {fl : FilterList} {c : CleanMethod} {s : ℚ}
    {t : Nat} {d : Nat → Nat → Nat} {tab : List TableRow} {fl2 : FilterList}
    (hok : genTable fl c s t d = .ok (tab, fl2)) :
    0 < s ∧ fl.index ≠ [] ∧ tab = genRows fl c s t d
      ∧ fl2 = genState fl c s t d := by
  by_cases hs : 0 < s
  · by_cases he : fl.index = []
    · simp [genTable, hs, he] at hok
    · simp only [genTable, hs, not_true_eq_false, if_false, he, if_true,
        not_false_eq_true, if_neg, Except.ok.injEq, Prod.mk.injEq] at hok
      exact ⟨hs, he, hok.1.symm, hok.2.symm⟩
  · simp [genTable, hs] at hok

theorem genIndex_sublist (fl : FilterList) (c : CleanMethod) :
    (genIndex fl c).Sublist fl.index := by
  cases c with
  | ZERO => exact List.Sublist.refl _
  | REMOVE => exact List.filter_sublist _

theorem bandPair_plain (c : Nat) (f0 v0 : ℚ) :
    bandPair .REMOVE 1 0 c f0 v0 = (f0, v0) := by
  simp [bandPair, scalePair, noisePair, cleanPair]

theorem bandPair_noisy {t : Nat} (ht : t ≠ 0) (clean : CleanMethod)
    (s : ℚ) (c : Nat) (f0 v0 : ℚ) :
    bandPair clean s t c f0 v0
      = (s * ((c : ℚ) / (t : ℚ)), s * ((c : ℚ) / ((t : ℚ) * (t : ℚ)))) := by
  cases clean <;> simp [bandPair, scalePair, noisePair, cleanPair, ht]

theorem bandPair_zero_texp (clean : CleanMethod) (s : ℚ) (c : Nat)
    (f0 v0 : ℚ) :
    bandPair clean s 0 c f0 v0 = scalePair s (cleanPair clean (f0, v0)) := by
  cases clean <;> simp [bandPair, noisePair]

theorem mkRow_vals_get? {fl : FilterList} {clean : CleanMethod} {s : ℚ}
    {t : Nat} {d : Nat → Nat → Nat} {r : Nat} {p : Nat × Nat} {b : Nat}
    {filt : Filter} (hb : fl.filters.get? b = some filt) :
    (mkRow fl clean s t d r p).vals.get? b
      = some (bandPair clean s t (d r b) (filt.flux p.1 p.2)
          (filt.fvar p.1 p.2)) := by
  have hgen := get?_indexedMap
    (fun bf : Nat × Filter => bandPair clean s t (d r bf.1)
      (bf.2.flux p.1 p.2) (bf.2.fvar p.1 p.2)) fl.filters 0 b
  simp only [mkRow]
  rw [hgen, hb]
  simp

theorem genRows_mem {fl : FilterList} {c : CleanMethod} {s : ℚ} {t : Nat}
    {d : Nat → Nat → Nat} {row : TableRow}
    (hrow : row ∈ genRows fl c s t d) :
    ∃ r p, (genIndex fl c).get? r = some p
      ∧ row = mkRow fl c s t d r p := by
  rcases List.mem_map.mp hrow with ⟨rp, hrp, rfl⟩
  rcases mem_indexed.mp hrp with ⟨j, hj, hid⟩
  refine ⟨rp.1, rp.2, ?_, rfl⟩
  have : rp.1 = j := by omega
  rw [this]
  exact hj

theorem link_ok_iff {fl : FilterList} {rows : List (Nat × ℚ)} :
    (∃ lo, link fl rows = .ok lo)
      ↔ (rows.length = fl.index.length
          ∧ (∀ i ∈ rows.map Prod.fst, i < fl.index.length)
          ∧ (∀ r < fl.index.length, r ∈ rows.map Prod.fst)) := by
  by_cases hc : rows.length = fl.index.length
      ∧ (∀ i ∈ rows.map Prod.fst, i < fl.index.length)
      ∧ (∀ r < fl.index.length, r ∈ rows.map Prod.fst)
  · unfold link
    rw [if_pos hc]
    exact iff_of_true ⟨⟨fl, rows⟩, rfl⟩ hc
  · unfold link
    rw [if_neg hc]
    refine iff_of_false ?_ hc
    rintro ⟨lo, hlo⟩
    exact Except.noConfusion hlo

theorem idSet_iff {ids : List Nat} {n : Nat} :
    ids.toFinset = Finset.range n
      ↔ ((∀ i ∈ ids, i < n) ∧ (∀ r < n, r ∈ ids)) := by
  constructor
  · intro hset
    constructor
    · intro i hi
      have : i ∈ Finset.range n := hset ▸ List.mem_toFinset.mpr hi
      exact Finset.mem_range.mp this
    · intro r hr
      have : r ∈ ids.toFinset := hset ▸ Finset.mem_range.mpr hr
      exact List.mem_toFinset.mp this
  · intro hc
    ext a
    simp only [List.mem_toFinset, Finset.mem_range]
    exact ⟨fun ha => hc.1 a ha, fun ha => hc.2 a ha⟩

theorem build_index (h w : Nat) (fs : List Filter)
    (mask : Nat → Nat → Bool) (z : ℚ) :
    (FilterList.build h w fs mask z).index = buildIndex h w mask := rfl

/-! ## Concrete fixtures used by the witnesses -/

/-- A 2×2 mask excluding only the pixel (0, 0). -/
def maskW : Nat → Nat → Bool := fun y x => y == 0 && x == 0

/-- A constant Poisson-draw oracle. -/
def drawW : Nat → Nat → Nat := fun _ _ => 3

/-- A single band with strictly positive flux and variance. -/
def filtW : Filter :=
  { name := "band0", flux := fun _ _ => 2, fvar := fun _ _ => 3,
    zeropoint := 0 }

/-- A 2×2 FilterList whose pixel index is `[(0,1), (1,0), (1,1)]`. -/
def flW : FilterList := FilterList.build 2 2 [filtW] maskW 0

/-- The outcome of a noise-free, unit-scale `genTable` on `flW`. -/
def genResW : Except SEDError (List TableRow × FilterList) :=
  genTable flW .REMOVE 1 0 drawW

/-- The table produced by `genResW`. -/
def tabW : List TableRow :=
  match genResW with
  | .ok pr => pr.1
  | .error _ => []

/-- The FilterList state produced by `genResW`. -/
def flW2 : FilterList :=
  match genResW with
  | .ok pr => pr.2
  | .error _ => flW

/-! ## The claims -/

/-- C1: for every mask and Filter stack of matching shape, constructing a
FilterList and reconstructing a synthetic row-id column reproduces the
row-major enumeration of non-masked pixels: the reconstructed image holds
`r` at the coordinates the pixel index assigned to row id `r`, and the
no-data sentinel at every masked pixel. -/
theorem c1_pixel_roundtrip (h w : Nat) (fs : List Filter)
    (mask : Nat → Nat → Bool) (z sentinel : ℚ) :
    (∀ r p, (FilterList.build h w fs mask z).coordOfRow r = some p →
      toImage (FilterList.build h w fs mask z)
        (idRows (FilterList.build h w fs mask z)) sentinel p.1 p.2
        = (r : ℚ)) ∧
    (∀ y x, mask y x = true →
      toImage (FilterList.build h w fs mask z)
        (idRows (FilterList.build h w fs mask z)) sentinel y x
        = sentinel) := by
  constructor
  · intro r p hg
    have hg2 : (FilterList.build h w fs mask z).index.get? r = some p := hg
    have hnd : (FilterList.build h w fs mask z).index.Nodup := by
      rw [build_index]; exact nodup_buildIndex h w mask
    have hrow : (FilterList.build h w fs mask z).rowOfCoord (p.1, p.2)
        = some r := by
      have hr := rowIdIn_of_get? hnd hg2
      simpa [FilterList.rowOfCoord] using hr
    have hlook : (idRows (FilterList.build h w fs mask z)).lookup r
        = some (r : ℚ) := by
      have hl := lookup_indexedMap_zero (fun r2 (_ : Nat × Nat) => (r2 : ℚ))
        (FilterList.build h w fs mask z).index r
      rw [hg2] at hl
      simpa [idRows] using hl
    simp [toImage, hrow, hlook]
  · intro y x hm
    have hnot : ((y, x) : Nat × Nat) ∉ (FilterList.build h w fs mask z).index := by
      rw [build_index]
      intro hmem
      have hmm := mem_buildIndex.mp hmem
      rw [hm] at hmm
      exact Bool.noConfusion hmm.2.2
    have hrow : (FilterList.build h w fs mask z).rowOfCoord (y, x) = none :=
      rowIdIn_eq_none hnot
    simp [toImage, hrow]

/-- Witness for C1 on the 2×2 grid masking pixel (0,0): row id 1 lands back
at its own pixel (1,0) and the masked pixel reads the sentinel. -/
theorem c1_pixel_roundtrip_witness :
    toImage (FilterList.build 2 2 [filtW] maskW 0)
        (idRows (FilterList.build 2 2 [filtW] maskW 0)) (-99) 1 0
      = ((1 : Nat) : ℚ) ∧
    toImage (FilterList.build 2 2 [filtW] maskW 0)
        (idRows (FilterList.build 2 2 [filtW] maskW 0)) (-99) 0 0
      = (-99 : ℚ) :=
  ⟨(c1_pixel_roundtrip 2 2 [filtW] maskW 0 (-99)).1 1 (1, 0) (by rfl),
   (c1_pixel_roundtrip 2 2 [filtW] maskW 0 (-99)).2 0 0 (by rfl)⟩

/-- C3: after construction the pixel index enumerates exactly the pixels
where the mask is false, in row-major order; the forward and inverse
mappings are mutual inverses; a successful `genTable` with the ZERO policy
leaves the index unchanged, and with any policy the surviving index is a
sublist of the original (it can only shrink, never reorder). -/
theorem c3_index_invariant (h w : Nat) (fs : List Filter)
    (mask : Nat → Nat → Bool) (z : ℚ) :
    (∀ p : Nat × Nat, p ∈ (FilterList.build h w fs mask z).index
        ↔ p.1 < h ∧ p.2 < w ∧ mask p.1 p.2 = false) ∧
    ((FilterList.build h w fs mask z).index.Pairwise rmLt) ∧
    (∀ r p, (FilterList.build h w fs mask z).coordOfRow r = some p →
        (FilterList.build h w fs mask z).rowOfCoord p = some r) ∧
    (∀ p r, (FilterList.build h w fs mask z).rowOfCoord p = some r →
        (FilterList.build h w fs mask z).coordOfRow r = some p) ∧
    (∀ (s : ℚ) (t : Nat) (d : Nat → Nat → Nat) tab fl2,
        genTable (FilterList.build h w fs mask z) .ZERO s t d
          = .ok (tab, fl2) →
        fl2.index = (FilterList.build h w fs mask z).index) ∧
    (∀ (c : CleanMethod) (s : ℚ) (t : Nat) (d : Nat → Nat → Nat) tab fl2,
        genTable (FilterList.build h w fs mask z) c s t d = .ok (tab, fl2) →
        fl2.index.Sublist (FilterList.build h w fs mask z).index) := by
  refine ⟨?_, ?_, ?_, ?_, ?_, ?_⟩
  · intro p
    rw [build_index]
    exact mem_buildIndex
  · rw [build_index]
    exact pairwise_buildIndex h w mask
  · intro r p hg
    have hnd : (FilterList.build h w fs mask z).index.Nodup := by
      rw [build_index]; exact nodup_buildIndex h w mask
    exact rowIdIn_of_get? hnd hg
  · intro p r hr
    exact get?_of_rowIdIn hr
  · intro s t d tab fl2 hok
    have hinv := genTable_ok_inv hok
    rw [hinv.2.2.2]
    rfl
  · intro c s t d tab fl2 hok
    have hinv := genTable_ok_inv hok
    rw [hinv.2.2.2]
    exact genIndex_sublist _ c

/-- Witness for C3: on the 2×2 example the unmasked pixel (0,1) is indexed,
the mappings invert each other at row id 2, and a ZERO-policy `genTable`
keeps the index. -/
theorem c3_index_invariant_witness :
    ((0, 1) : Nat × Nat) ∈ (FilterList.build 2 2 [filtW] maskW 0).index ∧
    (FilterList.build 2 2 [filtW] maskW 0).rowOfCoord (1, 1) = some 2 :=
  ⟨((c3_index_invariant 2 2 [filtW] maskW 0).1 (0, 1)).mpr (by decide),
   (c3_index_invariant 2 2 [filtW] maskW 0).2.2.1 2 (1, 1) (by rfl)⟩

/-- C4: `genTable` is all-or-nothing: a non-positive scale factor yields
InvalidParameter, an empty pixel index yields EmptyMask, these are the only
failures, and otherwise the complete table is produced (one row per
surviving index entry) together with the updated state; being a pure
state-passing function, an error outcome carries no modified state. -/
theorem c4_genTable_all_or_nothing (fl : FilterList) (c : CleanMethod)
    (s : ℚ) (t : Nat) (d : Nat → Nat → Nat) :
    (∀ e, genTable fl c s t d = .error e →
        (e = .InvalidParameter ∧ ¬ 0 < s)
        ∨ (e = .EmptyMask ∧ 0 < s ∧ fl.index = [])) ∧
    (¬ 0 < s → genTable fl c s t d = .error .InvalidParameter) ∧
    (0 < s → fl.index = [] → genTable fl c s t d = .error .EmptyMask) ∧
    (0 < s → fl.index ≠ [] →
        genTable fl c s t d = .ok (genRows fl c s t d, genState fl c s t d)
        ∧ (genRows fl c s t d).length
          = (genState fl c s t d).index.length) := by
  refine ⟨?_, ?_, ?_, ?_⟩
  · intro e he
    by_cases hs : 0 < s
    · by_cases hi : fl.index = []
      · right
        refine ⟨?_, hs, hi⟩
        rw [genTable, if_neg (by simpa using hs), if_pos hi] at he
        exact (Except.error.inj he).symm
      · rw [genTable, if_neg (by simpa using hs), if_neg hi] at he
        exact Except.noConfusion he
    · left
      refine ⟨?_, hs⟩
      rw [genTable, if_pos hs] at he
      exact (Except.error.inj he).symm
  · intro hs
    rw [genTable, if_pos hs]
  · intro hs hi
    rw [genTable, if_neg (by simpa using hs), if_pos hi]
  · intro hs hi
    refine ⟨by rw [genTable, if_neg (by simpa using hs), if_neg hi], ?_⟩
    show ((indexed 0 (genIndex fl c)).map _).length = _
    rw [List.length_map, length_indexed]
    rfl

/-- Witness for C4: a negative scale factor on the 2×2 example fails with
InvalidParameter. -/
theorem c4_genTable_all_or_nothing_witness :
    genTable flW .ZERO (-1) 0 drawW = .error .InvalidParameter :=
  (c4_genTable_all_or_nothing flW .ZERO (-1) 0 drawW).2.1 (by norm_num)

/-- C5: `link` fails with IndexMismatch exactly when the output row count
differs from the pixel-index cardinality or the set of identity values is
not exactly `{0, ..., N-1}`; on success it stores the FilterList reference
and the rows unchanged. -/
theorem c5_link_index_mismatch (fl : FilterList) (rows : List (Nat × ℚ)) :
    (link fl rows = .error .IndexMismatch
      ↔ ¬ (rows.length = fl.index.length
            ∧ (rows.map Prod.fst).toFinset
              = Finset.range fl.index.length)) ∧
    (∀ lo, link fl rows = .ok lo → lo.fl = fl ∧ lo.rows = rows) := by
  constructor
  · by_cases hc : rows.length = fl.index.length
        ∧ (∀ i ∈ rows.map Prod.fst, i < fl.index.length)
        ∧ (∀ r < fl.index.length, r ∈ rows.map Prod.fst)
    · unfold link
      rw [if_pos hc]
      refine iff_of_false (fun hcon => Except.noConfusion hcon) ?_
      exact fun hn => hn ⟨hc.1, idSet_iff.mpr hc.2⟩
    · unfold link
      rw [if_neg hc]
      refine iff_of_true rfl ?_
      intro hcon
      exact hc ⟨hcon.1, idSet_iff.mp hcon.2⟩
  · intro lo hlo
    by_cases hc : rows.length = fl.index.length
        ∧ (∀ i ∈ rows.map Prod.fst, i < fl.index.length)
        ∧ (∀ r < fl.index.length, r ∈ rows.map Prod.fst)
    · unfold link at hlo
      rw [if_pos hc] at hlo
      have : ({ fl := fl, rows := rows } : LinkedOutput) = lo :=
        Except.ok.inj hlo
      rw [← this]
      exact ⟨rfl, rfl⟩
    · unfold link at hlo
      rw [if_neg hc] at hlo
      exact Except.noConfusion hlo

/-- Witness for C5: linking a well-formed 3-row identity table to the 2×2
example succeeds and stores the FilterList and rows unchanged. -/
theorem c5_link_index_mismatch_witness :
    (LinkedOutput.mk flW [(0, 5), (1, 6), (2, 7)]).fl = flW ∧
    (LinkedOutput.mk flW [(0, 5), (1, 6), (2, 7)]).rows
      = [(0, 5), (1, 6), (2, 7)] :=
  (c5_link_index_mismatch flW [(0, 5), (1, 6), (2, 7)]).2
    ⟨flW, [(0, 5), (1, 6), (2, 7)]⟩ (by rfl)

/-- The 3×3 mask of the C7 scenario: only the center pixel is masked. -/
def mask3 : Nat → Nat → Bool := fun y x => y == 1 && x == 1

/-- A full synthetic output table for the 3×3 scenario: row ids 0..7 each
carrying an arbitrary column value `v r`. -/
def rows8 (v : Nat → ℚ) : List (Nat × ℚ) :=
  (List.range 8).map (fun r => (r, v r))

/-- C7: on a 3×3 grid with only the center masked, the pixel index has
exactly the 8 non-center coordinates in row-major order with row ids 0..7,
and reconstructing any column from a full synthetic output table places the
sentinel exactly at the center and the matching row value at every other
pixel. -/
theorem c7_three_by_three (fs : List Filter) (v : Nat → ℚ) (sentinel : ℚ) :
    (FilterList.build 3 3 fs mask3 0).index
      = [(0, 0), (0, 1), (0, 2), (1, 0), (1, 2), (2, 0), (2, 1), (2, 2)] ∧
    toImage (FilterList.build 3 3 fs mask3 0) (rows8 v) sentinel 1 1
      = sentinel ∧
    toImage (FilterList.build 3 3 fs mask3 0) (rows8 v) sentinel 0 0 = v 0 ∧
    toImage (FilterList.build 3 3 fs mask3 0) (rows8 v) sentinel 0 1 = v 1 ∧
    toImage (FilterList.build 3 3 fs mask3 0) (rows8 v) sentinel 0 2 = v 2 ∧
    toImage (FilterList.build 3 3 fs mask3 0) (rows8 v) sentinel 1 0 = v 3 ∧
    toImage (FilterList.build 3 3 fs mask3 0) (rows8 v) sentinel 1 2 = v 4 ∧
    toImage (FilterList.build 3 3 fs mask3 0) (rows8 v) sentinel 2 0 = v 5 ∧
    toImage (FilterList.build 3 3 fs mask3 0) (rows8 v) sentinel 2 1 = v 6 ∧
    toImage (FilterList.build 3 3 fs mask3 0) (rows8 v) sentinel 2 2 = v 7 :=
  ⟨rfl, rfl, rfl, rfl, rfl, rfl, rfl, rfl, rfl, rfl⟩

/-- C2: a noise-free (`texpFac = 0`), unit-scale `genTable` under the
pixel-discarding policy, followed by linking the identity-mapped per-band
flux column and reconstructing it, yields the original flux of that band at
every surviving pixel (exactly, in the rational model), and the table
retains the original variance unchanged. -/
theorem c2_noise_free_roundtrip (h w : Nat) (fs : List Filter)
    (mask : Nat → Nat → Bool) (z : ℚ) (d : Nat → Nat → Nat) (b : Nat)
    (f : Filter) (hb : fs.get? b = some f) (sentinel : ℚ)
    (tab : List TableRow) (fl2 : FilterList)
    (hok : genTable (FilterList.build h w fs mask z) .REMOVE 1 0 d
        = .ok (tab, fl2)) :
    (∃ lo, link fl2 (fluxCol tab b) = .ok lo) ∧
    (∀ p, p ∈ fl2.index →
        toImage fl2 (fluxCol tab b) sentinel p.1 p.2 = f.flux p.1 p.2) ∧
    (∀ row ∈ tab, row.vals.get? b
        = some (f.flux row.y row.x, f.fvar row.y row.x)) := by
  have hinv := genTable_ok_inv hok
  have htab := hinv.2.2.1
  have hfl2 := hinv.2.2.2
  have hidx2 : fl2.index
      = genIndex (FilterList.build h w fs mask z) .REMOVE := by
    rw [hfl2]; rfl
  have hnd2 : fl2.index.Nodup := by
    rw [hidx2]
    exact (nodup_buildIndex h w mask).filter _
  have hb2 : (FilterList.build h w fs mask z).filters.get? b = some f := hb
  have hcol : fluxCol tab b
      = (indexed 0 (genIndex (FilterList.build h w fs mask z) .REMOVE)).map
          (fun rp => (rp.1,
            ((mkRow (FilterList.build h w fs mask z) .REMOVE 1 0 d
              rp.1 rp.2).vals.getD b (0, 0)).1)) := by
    rw [htab]
    unfold fluxCol genRows
    rw [List.map_map]
    rfl
  have hval : ∀ r p,
      ((mkRow (FilterList.build h w fs mask z) .REMOVE 1 0 d
        r p).vals.getD b (0, 0)).1 = f.flux p.1 p.2 := by
    intro r p
    rw [List.getD_eq_get?, mkRow_vals_get? hb2, bandPair_plain]
    rfl
  have hlook : ∀ r p, fl2.index.get? r = some p →
      (fluxCol tab b).lookup r = some (f.flux p.1 p.2) := by
    intro r p hg
    rw [hidx2] at hg
    rw [hcol]
    refine (lookup_indexedMap_zero
      (fun r2 p2 => ((mkRow (FilterList.build h w fs mask z) .REMOVE 1 0 d
        r2 p2).vals.getD b (0, 0)).1)
      (genIndex (FilterList.build h w fs mask z) .REMOVE) r).trans ?_
    rw [hg]
    simp only [Option.map_some']
    exact congrArg some (hval r p)
  refine ⟨?_, ?_, ?_⟩
  · rw [link_ok_iff]
    refine ⟨?_, ?_, ?_⟩
    · rw [hcol, hidx2]
      simp [length_indexed]
    · intro i hi
      rw [hcol, List.map_map] at hi
      rcases List.mem_map.mp hi with ⟨rp, hrp, hie⟩
      rcases mem_indexed.mp hrp with ⟨j, hj, hid⟩
      rcases List.get?_eq_some.mp hj with ⟨hlt, _⟩
      have hi2 : rp.1 = i := hie
      rw [hidx2]
      omega
    · intro r hr
      rw [hidx2] at hr
      have hg : (genIndex (FilterList.build h w fs mask z) .REMOVE).get? r
          = some ((genIndex (FilterList.build h w fs mask z) .REMOVE).get
              ⟨r, hr⟩) :=
        List.get?_eq_some.mpr ⟨hr, rfl⟩
      have hmem : (r, (genIndex (FilterList.build h w fs mask z)
            .REMOVE).get ⟨r, hr⟩)
          ∈ indexed 0 (genIndex (FilterList.build h w fs mask z) .REMOVE) :=
        mem_indexed.mpr ⟨r, hg, by omega⟩
      rw [hcol, List.map_map]
      exact List.mem_map.mpr ⟨_, hmem, rfl⟩
  · intro p hp
    have hrow : fl2.rowOfCoord (p.1, p.2) = some (idxOf p fl2.index) := by
      simp [FilterList.rowOfCoord, rowIdIn, Prod.mk.eta, hp]
    have hg : fl2.index.get? (idxOf p fl2.index) = some p := get?_idxOf hp
    simp [toImage, hrow, hlook _ _ hg]
  · intro row hrow
    rw [htab] at hrow
    rcases genRows_mem hrow with ⟨r, p, hp, rfl⟩
    have hv := @mkRow_vals_get? (FilterList.build h w fs mask z)
      .REMOVE 1 0 d r p b f hb2
    rw [bandPair_plain] at hv
    exact hv

/-- Witness for C2: on the 2×2 example the reconstructed band-0 flux column
returns the original flux at the surviving pixel (0, 1). -/
theorem c2_noise_free_roundtrip_witness :
    toImage flW2 (fluxCol tabW 0) 7 0 1 = filtW.flux 0 1 :=
  (c2_noise_free_roundtrip 2 2 [filtW] maskW 0 drawW 0 filtW (by rfl) 7
    tabW flW2 (by rfl)).2.1 (0, 1) (by decide)

/-- C6: when `genTable` runs with `texpFac = t > 0`, every table entry's
variance is the drawn Poisson count divided by `t²` (then rescaled), not
the original variance scaled linearly; with `t = 0` no replacement occurs
and the (cleaned) original pair is only rescaled. -/
theorem c6_poisson_variance (fl : FilterList) (c : CleanMethod) (s : ℚ)
    (t : Nat) (d : Nat → Nat → Nat) (tab : List TableRow)
    (fl2 : FilterList) (hok : genTable fl c s t d = .ok (tab, fl2)) :
    (t ≠ 0 → ∀ row ∈ tab, ∀ b filt, fl.filters.get? b = some filt →
        row.vals.get? b
          = some (s * ((d row.id b : ℚ) / (t : ℚ)),
                  s * ((d row.id b : ℚ) / ((t : ℚ) * (t : ℚ))))) ∧
    (t = 0 → ∀ row ∈ tab, ∀ b filt, fl.filters.get? b = some filt →
        row.vals.get? b
          = some (scalePair s (cleanPair c
              (filt.flux row.y row.x, filt.fvar row.y row.x)))) := by
  have hinv := genTable_ok_inv hok
  have htab := hinv.2.2.1
  constructor
  · intro ht row hrow b filt hbf
    rw [htab] at hrow
    rcases genRows_mem hrow with ⟨r, p, hp, rfl⟩
    have hv := @mkRow_vals_get? fl c s t d r p b filt hbf
    rw [bandPair_noisy ht] at hv
    exact hv
  · intro ht row hrow b filt hbf
    subst ht
    rw [htab] at hrow
    rcases genRows_mem hrow with ⟨r, p, hp, rfl⟩
    have hv := @mkRow_vals_get? fl c s 0 d r p b filt hbf
    rw [bandPair_zero_texp] at hv
    exact hv

/-- The outcome of a `genTable` with exposure factor 2 on `flW`. -/
def genResN : Except SEDError (List TableRow × FilterList) :=
  genTable flW .ZERO 1 2 drawW

/-- The table produced by `genResN`. -/
def tabN : List TableRow :=
  match genResN with
  | .ok pr => pr.1
  | .error _ => []

/-- The FilterList state produced by `genResN`. -/
def flN : FilterList :=
  match genResN with
  | .ok pr => pr.2
  | .error _ => flW

/-- The first row of the noisy table on the 2×2 example. -/
def rowN : TableRow := mkRow flW .ZERO 1 2 drawW 0 (0, 1)

/-- Witness for C6: with exposure factor 2 and drawn count 3, the first
row's variance entry is `3 / 2²` (unit rescaling). -/
theorem c6_poisson_variance_witness :
    rowN.vals.get? 0
      = some (1 * ((drawW rowN.id 0 : ℚ) / ((2 : Nat) : ℚ)),
              1 * ((drawW rowN.id 0 : ℚ)
                / (((2 : Nat) : ℚ) * ((2 : Nat) : ℚ)))) :=
  (c6_poisson_variance flW .ZERO 1 2 drawW tabN flN (by rfl)).1
    (by decide) rowN (List.Mem.head _) 0 filtW (by rfl)

/-- Acceptance of a list-of-float property with both bounds present:
every element within the bounds and the extra test not rejecting. -/
theorem listFloatPropertyOk_some_iff (vals : List ℚ) (a b : ℚ)
    (reject : List ℚ → Bool) :
    listFloatPropertyOk vals (some a) (some b) reject = true
      ↔ (∀ v ∈ vals, a ≤ v ∧ v ≤ b) ∧ reject vals = false := by
  simp [listFloatPropertyOk, List.all_eq_true]

/-- C8: the claim that every successfully constructed module can render
itself fails on `DUSTATT_MODIFIED_CF00module`: its `__init__` assigns the
`slope_BC` property to the attribute `slope_ISM` (source line 580) and
never creates `slope_BC`, so `__str__` always hits a missing attribute
(`none`), whatever the construction arguments. -/
theorem c8_cf00_render_fails (filters Av mu s1 s2 : String) :
    cf00Str (cf00Init filters Av mu s1 s2) = none := rfl

/-- C9: the `E_BV_factor` check of `DUSTATT_MODIFIED_STARBUSTmodule` has
bounds `minBound = 0.0` and `maxBound = 0.0`, so it accepts a list exactly
when every value equals 0, and in particular rejects the declared default
`[0.44]`. -/
theorem c9_ebv_factor_zero_only (vals : List ℚ) :
    (eBVFactorOk vals = true ↔ ∀ v ∈ vals, v = 0)
    ∧ eBVFactorOk [(44 : ℚ) / 100] = false := by
  have hiff : ∀ l : List ℚ, eBVFactorOk l = true ↔ ∀ v ∈ l, v = 0 := by
    intro l
    rw [eBVFactorOk, listFloatPropertyOk_some_iff]
    constructor
    · intro hc v hv
      exact le_antisymm (hc.1 v hv).2 (hc.1 v hv).1
    · intro hc
      refine ⟨fun v hv => ?_, rfl⟩
      rw [hc v hv]
      exact ⟨le_refl 0, le_refl 0⟩
  refine ⟨hiff vals, ?_⟩
  cases hB : eBVFactorOk [(44 : ℚ) / 100] with
  | false => rfl
  | true =>
    exfalso
    have h44 := (hiff [(44 : ℚ) / 100]).mp hB ((44 : ℚ) / 100)
      (List.mem_singleton.mpr rfl)
    norm_num at h44

/-- Witness for C9: the all-zero list passes the `E_BV_factor` check. -/
theorem c9_ebv_factor_zero_only_witness : eBVFactorOk [0, 0] = true :=
  (c9_ebv_factor_zero_only [0, 0]).1.mpr (by simp)

/-- Membership in the `logU` grid is exactly being `i/10` for an integer
`i` between -40 and -10. -/
theorem mem_logURangeQ {v : ℚ} :
    v ∈ logURangeQ
      ↔ ∃ i : ℤ, -40 ≤ i ∧ i ≤ -10 ∧ v = (i : ℚ) / 10 := by
  unfold logURangeQ
  constructor
  · intro hv
    rcases List.mem_map.mp hv with ⟨j, hj, rfl⟩
    have hj31 : j < 31 := List.mem_range.mp hj
    exact ⟨(j : ℤ) - 40, by omega, by omega, rfl⟩
  · rintro ⟨i, h40, h10, rfl⟩
    have hjmem : (i + 40).toNat ∈ List.range 31 := by
      rw [List.mem_range]
      omega
    refine List.mem_map.mpr ⟨(i + 40).toNat, hjmem, ?_⟩
    have hcast : (((i + 40).toNat : ℤ)) = i + 40 := by omega
    rw [hcast]
    norm_num

/-- C10: the `logU` validation of `NEBULARmodule` accepts a list exactly
when every element sits on the 0.1-step grid from -4.0 to -1.0, i.e. equals
`i/10` for an integer `i` with `-40 ≤ i ≤ -10`. -/
theorem c10_nebular_logU_grid (vals : List ℚ) :
    nebularLogUOk vals = true
      ↔ ∀ v ∈ vals, ∃ i : ℤ, -40 ≤ i ∧ i ≤ -10 ∧ v = (i : ℚ) / 10 := by
  rw [nebularLogUOk, listFloatPropertyOk_some_iff]
  have hrej : (vals.any (fun i => ! decide (i ∈ logURangeQ))) = false
      ↔ ∀ v ∈ vals, v ∈ logURangeQ := by
    simp [List.any_eq_false]
  constructor
  · intro hc v hv
    exact mem_logURangeQ.mp ((hrej.mp hc.2) v hv)
  · intro hc
    constructor
    · intro v hv
      rcases hc v hv with ⟨i, h40, h10, rfl⟩
      constructor
      · have hi : (-40 : ℚ) ≤ (i : ℚ) := by exact_mod_cast h40
        linarith
      · have hi : ((i : ℚ)) ≤ -10 := by exact_mod_cast h10
        linarith
    · exact hrej.mpr (fun v hv => mem_logURangeQ.mpr (hc v hv))

/-- Witness for C10: the default `logU = [-2.0]` is on the grid and
accepted. -/
theorem c10_nebular_logU_grid_witness : nebularLogUOk [(-2 : ℚ)] = true :=
  (c10_nebular_logU_grid [(-2 : ℚ)]).mpr (by
    intro v hv
    rw [List.mem_singleton] at hv
    subst hv
    exact ⟨-20, by norm_num, by norm_num, by norm_num⟩)

end SED
